import Mathlib

/-!
Shallow embedding of the go-capataz sources under verification:

* `src/c/types.go` — the child-specification enumerations (`ChildTag`,
  `Restart`, `ShutdownTag`, `Shutdown`) and the `Timeout` / `Inf`
  constructors.
* `src/unnamed/part_000` (package `cap`) — the supervisor error taxonomy
  (`SupervisorTerminationError`, `SupervisorBuildError`,
  `SupervisorStartError`, `SupervisorRestartError`) and their `KVs`
  structured-logging projections.
* `src/unnamed/part_001` (package `saboteur`) — the fault-injection
  harness's `stateLoop` state machine over `sabotageDB`.

Go `map[string]T` values are modelled as association lists; `acc[k] = v`
on a Go map overwrites, which the model renders as appending the binding
and giving lookups last-binding-wins semantics (`mlookup`).  Go `error`
values are modelled by `GoErr`: either a plain error (no `ErrKVs`
implementation) or an error that the `errors.As(…, &ErrKVs)` probe
matches, carrying the key/value map its `KVs()` method reports.
-/

/-! ## Go values and errors (package cap, part_000) -/

mutual
/-- A Go `interface{}` value as stored in a `KVs` map: either a string or
an `error` value. -/
inductive Val where
  | str : String → Val
  | err : GoErr → Val

/-- A Go `error` value, as observed by `errors.As(err, &ErrKVs)`:
`base` is an error that does not match the `ErrKVs` interface; `kvErr`
is one that matches, carrying its message and the map its `KVs()` method
returns. -/
inductive GoErr where
  | base : String → GoErr
  | kvErr : String → List (String × Val) → GoErr
end

/-- A Go `map[string]interface{}` under construction: the list of
bindings in insertion order (later bindings overwrite earlier ones). -/
abbrev KV := List (String × Val)

/-- Go map lookup with overwrite semantics: the last binding of a key
wins. -/
def mlookup : KV → String → Option Val
  | [], _ => none
  | (k', v) :: m, k =>
    match mlookup m k with
    | some r => some r
    | none => if k' = k then some v else none

/-- The keys of a `KV` map (with multiplicity, in insertion order). -/
def mkeys (m : KV) : List String := m.map (·.1)

/-- Re-key every binding of a map by prepending a prefix string, as the
`fmt.Sprintf("supervisor.…%s", k)` loops of part_000 do. -/
def rekey (p : String) (m : KV) : KV := m.map (fun kv => (p ++ kv.1, kv.2))

/-- Go `strings.TrimPrefix`: drop the prefix when present, otherwise
return the string unchanged. -/
def trimPfx (p s : String) : String :=
  if p.data.isPrefixOf s.data then ⟨s.data.drop p.data.length⟩ else s

/-- Trim the `"supervisor."` prefix off every key of a map, as the
subtree re-keying loops of part_000 do before adding their own prefix. -/
def trimMap (m : KV) : KV := m.map (fun kv => (trimPfx "supervisor." kv.1, kv.2))

/-- `errors.As(e, &subTreeError)` for the `ErrKVs` interface: `some` of
the reported map when the error implements `ErrKVs`, `none` otherwise. -/
def errKVs : GoErr → Option KV
  | .base _ => none
  | .kvErr _ kvs => some kvs

/-! ### Decimal rendering of indices (`fmt.Sprintf("%d", i)`) -/

/-- Big-endian decimal digits of `n` (empty for `n = 0`), with enough
fuel to terminate; structural so that the kernel can evaluate it. -/
def decDigitsAux : Nat → Nat → List Char
  | 0, _ => []
  | fuel+1, n => if n = 0 then [] else decDigitsAux fuel (n / 10) ++ [Nat.digitChar (n % 10)]

/-- Decimal rendering of a natural number, as Go's `fmt.Sprintf("%d", i)`
produces for the non-negative loop indices of part_000. -/
def decRepr (n : Nat) : String := if n = 0 then "0" else ⟨decDigitsAux (n + 1) n⟩

/-- A decimal digit character (`'0'`–`'9'`). -/
def isDigitC (ch : Char) : Bool := decide (48 ≤ ch.toNat ∧ ch.toNat ≤ 57)

/-- Decode a big-endian digit string back to the number it denotes. -/
def decVal (l : List Char) : Nat := l.foldl (fun acc ch => 10 * acc + (ch.toNat - 48)) 0

/-! ### First-match association lists (Go maps with distinct keys) -/

/-- Go map lookup on an association list with distinct keys. -/
def alookup {α : Type} : List (String × α) → String → Option α
  | [], _ => none
  | (k', v) :: m, k => if k' = k then some v else alookup m k

/-- Go `delete(m, k)`. -/
def adel {α : Type} (m : List (String × α)) (k : String) : List (String × α) :=
  m.filter (fun p => decide (p.1 ≠ k))

/-- Go `m[k] = v`: overwrite the binding when the key is present,
append it otherwise. -/
def aset {α : Type} (m : List (String × α)) (k : String) (v : α) : List (String × α) :=
  if (alookup m k).isSome then m.map (fun p => if p.1 = k then (k, v) else p)
  else m ++ [(k, v)]

/-! ### Lexicographic string sort (`sort.Strings`) -/

/-- Byte-lexicographic order on strings, the order `sort.Strings` uses
(UTF-8 byte order agrees with code-point order). -/
def lexLe : List Char → List Char → Bool
  | [], _ => true
  | _ :: _, [] => false
  | a :: as, b :: bs =>
    if a.toNat < b.toNat then true
    else if b.toNat < a.toNat then false
    else lexLe as bs

/-- `a` compares at or below `b` in the order used by `sort.Strings`. -/
def strLe (a b : String) : Bool := lexLe a.data b.data

/-- Insert a string into an already sorted list. -/
def insSorted (x : String) : List String → List String
  | [] => [x]
  | y :: ys => if strLe x y then x :: y :: ys else y :: insSorted x ys

/-- `sort.Strings`: sort a list of strings into increasing
lexicographic order (insertion sort; `sort.Strings` is observationally
the same function on the distinct key lists it is applied to). -/
def sortStrs : List String → List String
  | [] => []
  | x :: xs => insSorted x (sortStrs xs)

/-! ### The supervisor error taxonomy (part_000) -/

/-- `SupervisorTerminationError`: errors returned by child nodes that
failed to terminate, keyed by node name, plus an optional resource
cleanup error. -/
structure SupervisorTerminationError where
  supRuntimeName : String
  nodeErrMap : List (String × GoErr)
  rscCleanupErr : Option GoErr

/-- `SupervisorBuildError`: a failure of the client-provided node
builder function. -/
structure SupervisorBuildError where
  supRuntimeName : String
  buildNodesErr : GoErr

/-- `SupervisorStartError`: a failure to initialize a child node, with
possible sibling termination errors from the rollback. -/
structure SupervisorStartError where
  supRuntimeName : String
  nodeName : String
  nodeErr : Option GoErr
  terminationErr : Option SupervisorTerminationError

/-- `SupervisorRestartError`: error tolerance surpassed on a child
node.  The `nodeErr` field is a `*c.ErrorToleranceReached`; that type's
definition is not under `src/`, and the `KVs` method of part_000 only
ever calls `nodeErr.KVs()`, so the field is modelled by the map that
call returns (`none` for a nil pointer). -/
structure SupervisorRestartError where
  supRuntimeName : String
  nodeErr : Option KV
  terminationErr : Option SupervisorTerminationError

/-- The key `fmt.Sprintf("supervisor.termination.node.%d.%s", i, s)`. -/
def termNodeKey (i : Nat) (s : String) : String :=
  "supervisor.termination.node." ++ decRepr i ++ "." ++ s

/-- The key prefix `fmt.Sprintf("supervisor.subtree.%d.", i)`. -/
def subtreePre (i : Nat) : String := "supervisor.subtree." ++ decRepr i ++ "."

/-- One iteration of the per-node loop of
`SupervisorTerminationError.KVs` for the `i`-th sorted node name:
either re-key the subtree error's `KVs` under `supervisor.subtree.<i>.`
(with the `supervisor.` prefix trimmed), or record the node name and
error under `supervisor.termination.node.<i>.`. -/
def nodeSeg (i : Nat) (n : String) (m : List (String × GoErr)) : KV :=
  match alookup m n with
  | none => []
  | some nodeErr =>
    match errKVs nodeErr with
    | some sub => rekey (subtreePre i) (trimMap sub)
    | none => [(termNodeKey i "name", Val.str n), (termNodeKey i "error", Val.err nodeErr)]

/-- The per-node loop of `SupervisorTerminationError.KVs`, over the
sorted node names with their indices. -/
def termNodes : Nat → List String → List (String × GoErr) → KV
  | _, [], _ => []
  | i, n :: ns, m => nodeSeg i n m ++ termNodes (i + 1) ns m

/-- The node names of the map, sorted as `sort.Strings` leaves them. -/
def sortedNodeNames (e : SupervisorTerminationError) : List String :=
  sortStrs (e.nodeErrMap.map (·.1))

/-- `SupervisorTerminationError.KVs` (part_000, lines 40–70). -/
def termKVs (e : SupervisorTerminationError) : KV :=
  [("supervisor.name", Val.str e.supRuntimeName)]
  ++ termNodes 0 (sortedNodeNames e) e.nodeErrMap
  ++ (match e.rscCleanupErr with
      | none => []
      | some ce => [("supervisor.termination.cleanup.error", Val.err ce)])

/-- `SupervisorBuildError.KVs` (part_000, lines 84–89). -/
def buildKVs (e : SupervisorBuildError) : KV :=
  [("supervisor.name", Val.str e.supRuntimeName),
   ("supervisor.build.error", Val.err e.buildNodesErr)]

/-- `SupervisorStartError.KVs` (part_000, lines 107–131).  Note the
subtree branch re-keys under `supervisor.subtree.<k>` with no index. -/
def startKVs (e : SupervisorStartError) : KV :=
  [("supervisor.name", Val.str e.supRuntimeName)]
  ++ (match e.nodeErr with
      | none => []
      | some ne =>
        match errKVs ne with
        | some sub => rekey "supervisor.subtree." (trimMap sub)
        | none =>
          [("supervisor.start.node.name", Val.str e.nodeName),
           ("supervisor.start.node.error", Val.err ne)])
  ++ (match e.terminationErr with
      | none => []
      | some te => termKVs te)

/-- `SupervisorRestartError.KVs` (part_000, lines 148–165). -/
def restartKVs (e : SupervisorRestartError) : KV :=
  [("supervisor.name", Val.str e.supRuntimeName)]
  ++ (match e.nodeErr with
      | none => []
      | some tol => rekey "supervisor.restart." tol)
  ++ (match e.terminationErr with
      | none => []
      | some te => termKVs te)

/-! ## `src/c/types.go` (package `c`) -/

namespace c

/-- `ChildTag`: the kind of child that is running. -/
inductive ChildTag where
  | Worker : ChildTag
  | Supervisor : ChildTag
deriving DecidableEq

/-- `ChildTag.String()`. -/
def childTagString : ChildTag → String
  | .Worker => "Worker"
  | .Supervisor => "Supervisor"

/-- `Restart`: when a goroutine gets restarted. -/
inductive Restart where
  | Permanent : Restart
  | Transient : Restart
  | Temporary : Restart
deriving DecidableEq

/-- `Restart.String()`. -/
def restartString : Restart → String
  | .Permanent => "Permanent"
  | .Transient => "Transient"
  | .Temporary => "Temporary"

/-- `ShutdownTag`: the type of shutdown strategy. -/
inductive ShutdownTag where
  | infinityT : ShutdownTag
  | timeoutT : ShutdownTag
deriving DecidableEq

/-- `Shutdown`: how the parent supervisor handles stopping of the child
goroutine.  `duration` models Go's `time.Duration` (an `int64`
nanosecond count, which may be zero or negative). -/
structure Shutdown where
  tag : ShutdownTag
  duration : Int
deriving DecidableEq

/-- `Inf`: wait until infinity for the child goroutine to stop (the
`duration` field is left at the Go zero value). -/
def Inf : Shutdown := ⟨.infinityT, 0⟩

/-- `Timeout(d)` (types.go, lines 93–98): build the timeout variant
carrying exactly the duration given; no validation is performed. -/
def Timeout (d : Int) : Shutdown := ⟨.timeoutT, d⟩

/-- Modelled from the spec: the restart decision a supervisor takes for
the failing child when the acted-on set is exactly that child under
OneForOne.  The deciding code is not under `src/`; `types.go` only
declares the `Restart` enumeration and documents each policy
(Permanent: restarted any time, with or without an error; Transient:
restarted if and only if it failed with an error; Temporary: never
restarted).  `errored` says whether the child terminated with a non-nil
error. -/
def restartDecision : Restart → Bool → Bool
  | .Permanent, _ => true
  | .Transient, errored => errored
  | .Temporary, _ => false

end c

/-! ## The saboteur `stateLoop` (part_001)

The loop owns a `sabotageDB` and serializes message handling.  Each
branch is modelled as a pure transition on the database state.  The
channels (`ResultChan` replies) are modelled by the list of replies the
branch sends (`none` for a nil / success reply); `spawner.Spawn` is an
external collaborator (the `cap.Spawner` interface), so its outcome is
an input of the start branch; the `ctx.Done()` cancellation arms of each
`select` are not taken in this model.  Calling the zero-valued (nil)
`stopPlan` function, which panics in Go, is recorded by the `nilCall`
flag (the panic unwinds before any further state change). -/

/-- `saboteurNode`: the per-subtree registration record (the `signaler`
channel carries no state relevant here). -/
structure SaboteurNode where
  startCount : Nat
deriving DecidableEq

/-- Go's `int32(u)` conversion of a `uint32` value (two's complement). -/
def int32ofUInt32 (u : Nat) : Int :=
  if u % 2 ^ 32 < 2 ^ 31 then (u % 2 ^ 32 : Int) else (u % 2 ^ 32 : Int) - 2 ^ 32

/-- `sabotagePlan`: a registered sabotage plan.  The `node` field holds
a `*saboteurNode`; the pointer is modelled by the subtree name it was
looked up under. -/
structure SabotagePlan where
  name : String
  duration : Int
  period : Int
  maxAttempts : Int
  node : String
deriving DecidableEq

/-- `insertSabotagePlanMsg.toPlan` (part_001, lines 46–54). -/
def toPlan (name : String) (duration period : Int) (attempts : Nat) (node : String) :
    SabotagePlan :=
  ⟨name, duration, period, int32ofUInt32 attempts, node⟩

/-- The state owned by `stateLoop`: the registered saboteurs, the plan
specifications, and the running plans.  A running plan's value is the
`stopPlanFn` returned by `spawner.Spawn`, modelled by the error the
function returns when called (`none` = clean stop). -/
structure SabotageDB where
  saboteurs : List (String × SaboteurNode)
  plans : List (String × SabotagePlan)
  runningPlans : List (String × Option String)
deriving DecidableEq

/-- One message consumed by `stateLoop`.  The `spawnResult` argument of
`startPlan` is the outcome of the external `spawner.Spawn` call:
`.error e` when the spawn fails, `.ok stopFn` with the spawned node's
stop function otherwise. -/
inductive SabotageMsg where
  | insertPlan (name subtreeName : String) (duration period : Int) (attempts : Nat)
  | rmPlan (name : String)
  | startPlan (name : String) (spawnResult : Except String (Option String))
  | stopPlan (name : String)
  | register (subtreeName : String)

/-- The observable outcome of one `stateLoop` branch: the state after
the branch, the replies it sent (`none` = success/nil reply),
whether it invoked `spawner.Spawn`, and whether it called a zero-valued
(nil) stop function (a Go panic). -/
structure StepResult where
  db : SabotageDB
  replies : List (Option String)
  spawnCalled : Bool
  nilCall : Bool
deriving DecidableEq

/-- The `insertPlanChan` branch (part_001, lines 141–177). -/
def insertBranch (db : SabotageDB) (name subtreeName : String)
    (duration period : Int) (attempts : Nat) : StepResult :=
  match alookup db.saboteurs subtreeName with
  | none => ⟨db, [some "invalid node name: not found"], false, false⟩
  | some _node =>
    match alookup db.plans name with
    | some _ => ⟨db, [some "plan name already registered"], false, false⟩
    | none =>
      ⟨{ db with plans := aset db.plans name (toPlan name duration period attempts subtreeName) },
       [none], false, false⟩

/-- The `rmPlanChan` branch (part_001, lines 179–218).  When the plan is
running and its stop fails, the branch replies and `continue`s, leaving
both maps untouched. -/
def rmBranch (db : SabotageDB) (name : String) : StepResult :=
  match alookup db.plans name with
  | none => ⟨db, [some "invalid plan name: not found"], false, false⟩
  | some _ =>
    match alookup db.runningPlans name with
    | some stopRes =>
      (match stopRes with
       | some e => ⟨db, [some ("plan could not be stopped: " ++ e)], false, false⟩
       | none =>
         ⟨{ db with
              runningPlans := adel db.runningPlans name,
              plans := adel db.plans name },
          [none], false, false⟩)
    | none => ⟨{ db with plans := adel db.plans name }, [none], false, false⟩

/-- The `startPlanChan` branch (part_001, lines 220–266). -/
def startBranch (db : SabotageDB) (name : String)
    (spawnResult : Except String (Option String)) : StepResult :=
  match alookup db.plans name with
  | none => ⟨db, [some "invalid plan name: not found"], false, false⟩
  | some _plan =>
    match alookup db.runningPlans name with
    | some _ => ⟨db, [some "plan already running"], false, false⟩
    | none =>
      match spawnResult with
      | .error e => ⟨db, [some ("could not start plan: " ++ e)], true, false⟩
      | .ok stopFn =>
        ⟨{ db with runningPlans := aset db.runningPlans name stopFn }, [none], true, false⟩

/-- The `stopPlanChan` branch (part_001, lines 268–314).  The
not-running arm replies but does not `continue`, so control falls
through into `err := stopPlan()` with `stopPlan` the zero value (nil):
a nil function call, recorded by `nilCall`. -/
def stopBranch (db : SabotageDB) (name : String) : StepResult :=
  match alookup db.plans name with
  | none => ⟨db, [some "invalid plan name: not found"], false, false⟩
  | some _ =>
    match alookup db.runningPlans name with
    | none => ⟨db, [some "plan is not running"], false, true⟩
    | some stopRes =>
      match stopRes with
      | some e => ⟨db, [some ("plan could not be stopped: " ++ e)], false, false⟩
      | none =>
        ⟨{ db with runningPlans := adel db.runningPlans name }, [none], false, false⟩

/-- The `registerSignaler` branch (part_001, lines 316–338): create the
saboteur node on first registration, then increment its start count;
the reply carries the node's signaler channel (a success reply). -/
def registerBranch (db : SabotageDB) (subtreeName : String) : StepResult :=
  let node := (alookup db.saboteurs subtreeName).getD ⟨0⟩
  ⟨{ db with saboteurs := aset db.saboteurs subtreeName ⟨node.startCount + 1⟩ },
   [none], false, false⟩

/-- One iteration of `stateLoop` (part_001, lines 135–341) on one
message. -/
def stateStep (db : SabotageDB) : SabotageMsg → StepResult
  | .insertPlan name subtreeName duration period attempts =>
    insertBranch db name subtreeName duration period attempts
  | .rmPlan name => rmBranch db name
  | .startPlan name spawnResult => startBranch db name spawnResult
  | .stopPlan name => stopBranch db name
  | .register subtreeName => registerBranch db subtreeName

/-- The key-set invariant of `sabotageDB`: every running plan name is
also a registered plan name. -/
def dbInvariant (db : SabotageDB) : Prop :=
  ∀ p ∈ db.runningPlans, (alookup db.plans p.1).isSome

instance (db : SabotageDB) : Decidable (dbInvariant db) :=
  List.decidableBAll _ db.runningPlans

/-! ## Map lookup lemmas -/

theorem mlookup_append (a b : KV) (k : String) :
    mlookup (a ++ b) k = (mlookup b k).or (mlookup a k) := by
  induction a with
  | nil => simp [mlookup]
  | cons p a ih =>
    obtain ⟨k', v⟩ := p
    rw [List.cons_append]
    show (match mlookup (a ++ b) k with
      | some r => some r
      | none => if k' = k then some v else none) =
      (mlookup b k).or (match mlookup a k with
      | some r => some r
      | none => if k' = k then some v else none)
    rw [ih]
    cases mlookup b k <;> cases mlookup a k <;> simp [Option.or]

theorem mlookup_eq_none (m : KV) (k : String) (h : ∀ p ∈ m, p.1 ≠ k) :
    mlookup m k = none := by
  induction m with
  | nil => rfl
  | cons p m ih =>
    obtain ⟨k', v⟩ := p
    have hk' : k' ≠ k := h (k', v) (List.mem_cons_self ..)
    have hm : mlookup m k = none := ih (fun q hq => h q (List.mem_cons_of_mem _ hq))
    simp [mlookup, hm, hk']

theorem mem_mkeys {m : KV} {k : String} (h : k ∈ mkeys m) : ∃ v, (k, v) ∈ m := by
  obtain ⟨⟨k', v⟩, hp, he⟩ := List.mem_map.mp h
  exact ⟨v, he ▸ hp⟩

theorem mlookup_isSome_of_mem (m : KV) (k : String) (h : k ∈ mkeys m) :
    (mlookup m k).isSome := by
  induction m with
  | nil => simp [mkeys] at h
  | cons p m ih =>
    obtain ⟨k', v⟩ := p
    simp only [mlookup]
    cases hm : mlookup m k with
    | some r => simp
    | none =>
      simp only [mkeys, List.map_cons, List.mem_cons] at h
      rcases h with h | h
      · simp [h.symm]
      · have := ih h
        rw [hm] at this
        simp at this

theorem mlookup_append_right (a b : KV) (k : String) (h : k ∈ mkeys b) :
    mlookup (a ++ b) k = mlookup b k := by
  rw [mlookup_append]
  have := mlookup_isSome_of_mem b k h
  cases hb : mlookup b k with
  | some r => simp [Option.or]
  | none => rw [hb] at this; simp at this

/-! ## String tools -/

theorem sappend_data (a b : String) : (a ++ b).data = a.data ++ b.data :=
  String.data_append ..

theorem str_eq_of_data (a b : String) (h : a.data = b.data) : a = b := by
  cases a; cases b; exact congrArg String.mk h

theorem sappend_right_cancel (p a b : String) (h : p ++ a = p ++ b) : a = b := by
  apply str_eq_of_data
  have := congrArg String.data h
  rw [sappend_data, sappend_data] at this
  exact List.append_cancel_left this

theorem sappend_ne_right (x a b : String) (h : a ≠ b) : x ++ a ≠ x ++ b :=
  fun he => h (sappend_right_cancel x a b he)

theorem append_take_of_le (p r : String) (n : Nat) (h : n ≤ p.data.length) :
    (p ++ r).data.take n = p.data.take n := by
  rw [sappend_data, List.take_append_of_le_length h]

theorem pre_append_ne (p q : String) (n : Nat)
    (hp : n ≤ p.data.length) (hq : n ≤ q.data.length)
    (hne : p.data.take n ≠ q.data.take n) (r s : String) : p ++ r ≠ q ++ s := by
  intro he
  apply hne
  rw [← append_take_of_le p r n hp, ← append_take_of_le q s n hq, he]

theorem ne_pre_append (K p : String) (n : Nat) (hp : n ≤ p.data.length)
    (h : K.data.take n ≠ p.data.take n) (r : String) : K ≠ p ++ r := by
  intro he
  apply h
  rw [he, append_take_of_le p r n hp]

theorem mlookup_rekey (p : String) (m : KV) (k : String) :
    mlookup (rekey p m) (p ++ k) = mlookup m k := by
  induction m with
  | nil => rfl
  | cons q m ih =>
    obtain ⟨k', v⟩ := q
    simp only [rekey, List.map_cons, mlookup] at ih ⊢
    rw [ih]
    cases mlookup m k with
    | some r => rfl
    | none =>
      by_cases hk : k' = k
      · simp [hk]
      · simp [hk, sappend_ne_right p k' k hk]

theorem mkeys_rekey (p : String) (m : KV) :
    mkeys (rekey p m) = (mkeys m).map (fun k => p ++ k) := by
  simp [mkeys, rekey]

/-! ## Decimal rendering: digits, round trip, injectivity -/

theorem digitChar_isDigit : ∀ d : Nat, d < 10 → isDigitC (Nat.digitChar d) = true := by
  decide

theorem digitChar_val : ∀ d : Nat, d < 10 → (Nat.digitChar d).toNat - 48 = d := by
  decide

theorem decDigitsAux_digits (fuel : Nat) : ∀ n, ∀ ch ∈ decDigitsAux fuel n, isDigitC ch = true := by
  induction fuel with
  | zero => intro n ch h; simp [decDigitsAux] at h
  | succ fuel ih =>
    intro n ch h
    by_cases hn : n = 0
    · simp [decDigitsAux, hn] at h
    · simp only [decDigitsAux, if_neg hn, List.mem_append, List.mem_singleton] at h
      rcases h with h | h
      · exact ih (n / 10) ch h
      · exact h ▸ digitChar_isDigit (n % 10) (Nat.mod_lt n (by norm_num))

theorem decVal_append_digit (l : List Char) (ch : Char) :
    decVal (l ++ [ch]) = 10 * decVal l + (ch.toNat - 48) := by
  simp [decVal, List.foldl_append]

theorem decVal_decDigitsAux (fuel : Nat) : ∀ n, n ≤ fuel → decVal (decDigitsAux fuel n) = n := by
  induction fuel with
  | zero => intro n h; interval_cases n; rfl
  | succ fuel ih =>
    intro n h
    by_cases hn : n = 0
    · simp [decDigitsAux, hn, decVal]
    · have h10 : n / 10 ≤ fuel := by
        have : n / 10 < n := Nat.div_lt_self (Nat.pos_of_ne_zero hn) (by norm_num)
        omega
      rw [decDigitsAux, if_neg hn, decVal_append_digit, ih (n / 10) h10,
        digitChar_val (n % 10) (Nat.mod_lt n (by omega))]
      omega

theorem decVal_decRepr (n : Nat) : decVal (decRepr n).data = n := by
  by_cases hn : n = 0
  · subst hn; rfl
  · show decVal (String.data (decRepr n)) = n
    rw [decRepr, if_neg hn]
    exact decVal_decDigitsAux (n + 1) n (Nat.le_succ n)

theorem decRepr_inj {m n : Nat} (h : decRepr m = decRepr n) : m = n := by
  have h2 : decVal (decRepr m).data = decVal (decRepr n).data := by rw [h]
  rwa [decVal_decRepr, decVal_decRepr] at h2

theorem decRepr_digits (n : Nat) : ∀ ch ∈ (decRepr n).data, isDigitC ch = true := by
  by_cases hn : n = 0
  · subst hn; decide
  · show ∀ ch ∈ String.data (decRepr n), isDigitC ch = true
    rw [decRepr, if_neg hn]
    exact decDigitsAux_digits (n + 1) n

/-- Splitting at a `'.'` separator after a run of digit characters is
unambiguous: the digit run and the tail are both determined. -/
theorem sep_split (u : List Char) : ∀ v a b : List Char,
    (∀ ch ∈ u, isDigitC ch = true) → (∀ ch ∈ v, isDigitC ch = true) →
    u ++ '.' :: a = v ++ '.' :: b → u = v ∧ a = b := by
  induction u with
  | nil =>
    intro v a b _ hv h
    cases v with
    | nil => simpa using h
    | cons d vs =>
      simp only [List.nil_append, List.cons_append, List.cons.injEq] at h
      have : isDigitC '.' = true := h.1 ▸ hv d (List.mem_cons_self ..)
      simp [isDigitC] at this
  | cons ch us ih =>
    intro v a b hu hv h
    cases v with
    | nil =>
      simp only [List.nil_append, List.cons_append, List.cons.injEq] at h
      have : isDigitC '.' = true := h.1 ▸ hu ch (List.mem_cons_self ..)
      simp [isDigitC] at this
    | cons d vs =>
      simp only [List.cons_append, List.cons.injEq] at h
      obtain ⟨h1, h2⟩ := h
      have := ih vs a b (fun c hc => hu c (List.mem_cons_of_mem _ hc))
        (fun c hc => hv c (List.mem_cons_of_mem _ hc)) h2
      exact ⟨by rw [h1, this.1], this.2⟩

/-- Keys of the form `p ++ <decimal i> ++ "." ++ r` with distinct
indices are distinct strings. -/
theorem idx_key_ne (p : String) {i j : Nat} (r s : String) (hij : i ≠ j) :
    p ++ decRepr i ++ "." ++ r ≠ p ++ decRepr j ++ "." ++ s := by
  intro he
  apply hij
  have hd := congrArg String.data he
  simp only [sappend_data] at hd
  simp only [List.append_assoc, List.singleton_append] at hd
  have := List.append_cancel_left hd
  have hsplit := sep_split (decRepr i).data (decRepr j).data r.data s.data
    (decRepr_digits i) (decRepr_digits j) this
  exact decRepr_inj (str_eq_of_data _ _ hsplit.1)

/-! ## Key shapes and disjointness -/

theorem sappend_assoc (a b c : String) : a ++ b ++ c = a ++ (b ++ c) := by
  apply str_eq_of_data
  simp [sappend_data, List.append_assoc]

theorem subtreePre_append (i : Nat) (r : String) :
    subtreePre i ++ r = "supervisor.subtree." ++ (decRepr i ++ ("." ++ r)) := by
  rw [subtreePre, sappend_assoc, sappend_assoc]

theorem termNodeKey_append (i : Nat) (r : String) :
    termNodeKey i r = "supervisor.termination.node." ++ (decRepr i ++ ("." ++ r)) := by
  rw [termNodeKey, sappend_assoc, sappend_assoc]

theorem subtree_ne_node (i i' : Nat) (r s : String) :
    subtreePre i ++ r ≠ termNodeKey i' s := by
  rw [subtreePre_append, termNodeKey_append]
  exact pre_append_ne "supervisor.subtree." "supervisor.termination.node." 12
    (by decide) (by decide) (by decide) _ _

theorem subtree_ne_subtree {i i' : Nat} (r s : String) (h : i ≠ i') :
    subtreePre i ++ r ≠ subtreePre i' ++ s := by
  show "supervisor.subtree." ++ decRepr i ++ "." ++ r
      ≠ "supervisor.subtree." ++ decRepr i' ++ "." ++ s
  exact idx_key_ne "supervisor.subtree." r s h

theorem node_ne_node {i i' : Nat} (r s : String) (h : i ≠ i') :
    termNodeKey i r ≠ termNodeKey i' s :=
  idx_key_ne "supervisor.termination.node." r s h

theorem name_ne_subtree (i : Nat) (r : String) :
    ("supervisor.name" : String) ≠ subtreePre i ++ r := by
  rw [subtreePre_append]
  exact ne_pre_append "supervisor.name" "supervisor.subtree." 12 (by decide) (by decide) _

theorem name_ne_node (i : Nat) (r : String) :
    ("supervisor.name" : String) ≠ termNodeKey i r := by
  rw [termNodeKey_append]
  exact ne_pre_append "supervisor.name" "supervisor.termination.node." 12
    (by decide) (by decide) _

theorem cleanup_ne_subtree (i : Nat) (r : String) :
    ("supervisor.termination.cleanup.error" : String) ≠ subtreePre i ++ r := by
  rw [subtreePre_append]
  exact ne_pre_append "supervisor.termination.cleanup.error" "supervisor.subtree." 12
    (by decide) (by decide) _

theorem cleanup_ne_node (i : Nat) (r : String) :
    ("supervisor.termination.cleanup.error" : String) ≠ termNodeKey i r := by
  rw [termNodeKey_append]
  exact ne_pre_append "supervisor.termination.cleanup.error" "supervisor.termination.node." 24
    (by decide) (by decide) _

/-! ## termNodes lemmas -/

theorem termNodes_cons (i : Nat) (n : String) (ns : List String)
    (m : List (String × GoErr)) :
    termNodes i (n :: ns) m = nodeSeg i n m ++ termNodes (i + 1) ns m := rfl

theorem nodeSeg_keys_shape (i : Nat) (n : String) (m : List (String × GoErr)) :
    ∀ k ∈ mkeys (nodeSeg i n m), ∃ r, (k = subtreePre i ++ r ∨ k = termNodeKey i r) := by
  intro k hk
  rw [nodeSeg] at hk
  split at hk
  · simp [mkeys] at hk
  · split at hk
    · rename_i sub hekv
      rw [mkeys_rekey] at hk
      obtain ⟨k0, _, hke⟩ := List.mem_map.mp hk
      exact ⟨k0, Or.inl hke.symm⟩
    · simp only [mkeys, List.map_cons, List.map_nil, List.mem_cons,
        List.not_mem_nil, or_false] at hk
      rcases hk with hk | hk
      · exact ⟨"name", Or.inr hk⟩
      · exact ⟨"error", Or.inr hk⟩

theorem termNodes_keys_shape (ns : List String) :
    ∀ (j : Nat) (m : List (String × GoErr)),
    ∀ k ∈ mkeys (termNodes j ns m),
      ∃ i, j ≤ i ∧ ∃ r, (k = subtreePre i ++ r ∨ k = termNodeKey i r) := by
  induction ns with
  | nil =>
    intro j m k hk
    simp [termNodes, mkeys] at hk
  | cons n ns ih =>
    intro j m k hk
    rw [termNodes_cons, mkeys, List.map_append] at hk
    rcases List.mem_append.mp hk with hk | hk
    · obtain ⟨r, hr⟩ := nodeSeg_keys_shape j n m k hk
      exact ⟨j, le_refl j, r, hr⟩
    · obtain ⟨i, hji, r, hr⟩ := ih (j + 1) m k hk
      exact ⟨i, by omega, r, hr⟩

theorem termNodes_lookup_node_none (ns : List String) (j : Nat)
    (m : List (String × GoErr)) (i0 : Nat) (hi0 : i0 < j) (s : String) :
    mlookup (termNodes j ns m) (termNodeKey i0 s) = none := by
  apply mlookup_eq_none
  intro p hp
  have hk : p.1 ∈ mkeys (termNodes j ns m) := List.mem_map_of_mem _ hp
  obtain ⟨i, hji, r, hr | hr⟩ := termNodes_keys_shape ns j m p.1 hk
  · rw [hr]; exact subtree_ne_node i i0 r s
  · rw [hr]; exact node_ne_node r s (by omega)

theorem termNodes_lookup_subtree_none (ns : List String) (j : Nat)
    (m : List (String × GoErr)) (i0 : Nat) (hi0 : i0 < j) (s : String) :
    mlookup (termNodes j ns m) (subtreePre i0 ++ s) = none := by
  apply mlookup_eq_none
  intro p hp
  have hk : p.1 ∈ mkeys (termNodes j ns m) := List.mem_map_of_mem _ hp
  obtain ⟨i, hji, r, hr | hr⟩ := termNodes_keys_shape ns j m p.1 hk
  · rw [hr]
    have hne : i ≠ i0 := by omega
    exact subtree_ne_subtree r s hne
  · rw [hr]
    exact (subtree_ne_node i0 i s r).symm

theorem nodeSeg_node (i : Nat) (n : String) (m : List (String × GoErr)) (err : GoErr)
    (halk : alookup m n = some err) (hekv : errKVs err = none) :
    nodeSeg i n m =
      [(termNodeKey i "name", Val.str n), (termNodeKey i "error", Val.err err)] := by
  unfold nodeSeg
  split
  · rename_i h; rw [halk] at h; cases h
  · rename_i ne h
    rw [halk] at h
    injection h with h
    subst h
    split
    · rename_i sub h2; rw [hekv] at h2; cases h2
    · rfl

theorem nodeSeg_subtree (i : Nat) (n : String) (m : List (String × GoErr)) (err : GoErr)
    (sub : KV) (halk : alookup m n = some err) (hekv : errKVs err = some sub) :
    nodeSeg i n m = rekey (subtreePre i) (trimMap sub) := by
  unfold nodeSeg
  split
  · rename_i h; rw [halk] at h; cases h
  · rename_i ne h
    rw [halk] at h
    injection h with h
    subst h
    split
    · rename_i sub2 h2
      rw [hekv] at h2
      injection h2 with h2
      subst h2
      rfl
    · rename_i h2; rw [hekv] at h2; cases h2

theorem nodeSeg_lookup_subtree_ne (i : Nat) (n : String) (m : List (String × GoErr))
    {i0 : Nat} (hne : i0 ≠ i) (s : String) :
    mlookup (nodeSeg i n m) (subtreePre i0 ++ s) = none := by
  apply mlookup_eq_none
  intro p hp
  obtain ⟨r, hr | hr⟩ := nodeSeg_keys_shape i n m p.1 (List.mem_map_of_mem _ hp)
  · rw [hr]
    have : i ≠ i0 := fun h => hne h.symm
    exact subtree_ne_subtree r s this
  · rw [hr]
    exact (subtree_ne_node i0 i s r).symm

theorem nodeSeg_lookup_node_ne (i : Nat) (n : String) (m : List (String × GoErr))
    {i0 : Nat} (hne : i0 ≠ i) (s : String) :
    mlookup (nodeSeg i n m) (termNodeKey i0 s) = none := by
  apply mlookup_eq_none
  intro p hp
  obtain ⟨r, hr | hr⟩ := nodeSeg_keys_shape i n m p.1 (List.mem_map_of_mem _ hp)
  · rw [hr]
    exact subtree_ne_node i i0 r s
  · rw [hr]
    have : i ≠ i0 := fun h => hne h.symm
    exact node_ne_node r s this

theorem termNodeKey_ne_of_suffix_ne (i : Nat) {a b : String} (h : a ≠ b) :
    termNodeKey i a ≠ termNodeKey i b := by
  rw [termNodeKey, termNodeKey]
  exact sappend_ne_right _ a b h

theorem termNodes_lookup_node (ns : List String) :
    ∀ (j i : Nat) (m : List (String × GoErr)) (hi : i < ns.length) (err : GoErr),
    alookup m (ns.get ⟨i, hi⟩) = some err → errKVs err = none →
    mlookup (termNodes j ns m) (termNodeKey (j + i) "name")
        = some (Val.str (ns.get ⟨i, hi⟩)) ∧
    mlookup (termNodes j ns m) (termNodeKey (j + i) "error") = some (Val.err err) := by
  induction ns with
  | nil => intro j i m hi err; exact absurd hi (by simp)
  | cons n ns ih =>
    intro j i m hi err halk hekv
    cases i with
    | zero =>
      have hg : (n :: ns).get ⟨0, hi⟩ = n := rfl
      rw [hg] at halk ⊢
      rw [Nat.add_zero, termNodes_cons, nodeSeg_node j n m err halk hekv]
      have hrest : ∀ s, mlookup (termNodes (j + 1) ns m) (termNodeKey j s) = none :=
        fun s => termNodes_lookup_node_none ns (j + 1) m j (by omega) s
      have hne : termNodeKey j "error" ≠ termNodeKey j "name" :=
        termNodeKey_ne_of_suffix_ne j (by decide)
      constructor
      · rw [mlookup_append, hrest "name"]
        simp [mlookup, hne]
      · rw [mlookup_append, hrest "error"]
        simp [mlookup]
    | succ i' =>
      have hi' : i' < ns.length := by simpa using Nat.lt_of_succ_lt_succ hi
      have hg : (n :: ns).get ⟨i' + 1, hi⟩ = ns.get ⟨i', hi'⟩ := rfl
      rw [hg] at halk ⊢
      have hkey : j + (i' + 1) = (j + 1) + i' := by omega
      rw [hkey, termNodes_cons]
      have hih := ih (j + 1) i' m hi' err halk hekv
      have hseg : ∀ s, mlookup (nodeSeg j n m) (termNodeKey (j + 1 + i') s) = none :=
        fun s => nodeSeg_lookup_node_ne j n m (by omega) s
      constructor
      · rw [mlookup_append, hih.1]
        simp [Option.or]
      · rw [mlookup_append, hih.2]
        simp [Option.or]

theorem termNodes_lookup_subtree (ns : List String) :
    ∀ (j i : Nat) (m : List (String × GoErr)) (hi : i < ns.length) (err : GoErr) (sub : KV),
    alookup m (ns.get ⟨i, hi⟩) = some err → errKVs err = some sub →
    ∀ k0 : String,
      mlookup (termNodes j ns m) (subtreePre (j + i) ++ k0) = mlookup (trimMap sub) k0 := by
  induction ns with
  | nil => intro j i m hi; exact absurd hi (by simp)
  | cons n ns ih =>
    intro j i m hi err sub halk hekv k0
    cases i with
    | zero =>
      have hg : (n :: ns).get ⟨0, hi⟩ = n := rfl
      rw [hg] at halk
      rw [Nat.add_zero, termNodes_cons, nodeSeg_subtree j n m err sub halk hekv]
      rw [mlookup_append, termNodes_lookup_subtree_none ns (j + 1) m j (by omega) k0]
      rw [Option.none_or]
      exact mlookup_rekey (subtreePre j) (trimMap sub) k0
    | succ i' =>
      have hi' : i' < ns.length := by simpa using Nat.lt_of_succ_lt_succ hi
      have hg : (n :: ns).get ⟨i' + 1, hi⟩ = ns.get ⟨i', hi'⟩ := rfl
      rw [hg] at halk
      have hkey : j + (i' + 1) = (j + 1) + i' := by omega
      rw [hkey, termNodes_cons]
      rw [mlookup_append, nodeSeg_lookup_subtree_ne j n m (by omega) k0, Option.or_none]
      exact ih (j + 1) i' m hi' err sub halk hekv k0

/-! ## termKVs lemmas -/

theorem take13_subtree (i : Nat) (r : String) :
    (subtreePre i ++ r).data.take 13 = "supervisor.subtree.".data.take 13 := by
  rw [subtreePre_append]
  exact append_take_of_le _ _ 13 (by decide)

theorem take13_node (i : Nat) (r : String) :
    (termNodeKey i r).data.take 13 = "supervisor.termination.".data.take 13 := by
  rw [termNodeKey_append]
  rw [append_take_of_le _ _ 13 (by decide)]
  decide

theorem termKVs_lookup_name (e : SupervisorTerminationError) :
    mlookup (termKVs e) "supervisor.name" = some (Val.str e.supRuntimeName) := by
  rw [termKVs]
  have hmid : mlookup (termNodes 0 (sortedNodeNames e) e.nodeErrMap) "supervisor.name"
      = none := by
    apply mlookup_eq_none
    intro p hp
    obtain ⟨i, _, r, hr | hr⟩ :=
      termNodes_keys_shape _ 0 _ p.1 (List.mem_map_of_mem _ hp)
    · rw [hr]; exact (name_ne_subtree i r).symm
    · rw [hr]; exact (name_ne_node i r).symm
  rw [mlookup_append, mlookup_append, hmid]
  cases e.rscCleanupErr with
  | none => simp [mlookup, Option.or]
  | some ce =>
    have hck : ("supervisor.termination.cleanup.error" : String) ≠ "supervisor.name" := by
      decide
    simp [mlookup, Option.or, hck]

theorem termKVs_lookup_cleanup (e : SupervisorTerminationError) :
    (mlookup (termKVs e) "supervisor.termination.cleanup.error").isSome
      ↔ e.rscCleanupErr.isSome := by
  rw [termKVs]
  have hmid : mlookup (termNodes 0 (sortedNodeNames e) e.nodeErrMap)
      "supervisor.termination.cleanup.error" = none := by
    apply mlookup_eq_none
    intro p hp
    obtain ⟨i, _, r, hr | hr⟩ :=
      termNodes_keys_shape _ 0 _ p.1 (List.mem_map_of_mem _ hp)
    · rw [hr]; exact (cleanup_ne_subtree i r).symm
    · rw [hr]; exact (cleanup_ne_node i r).symm
  have hname : ("supervisor.name" : String) ≠ "supervisor.termination.cleanup.error" := by
    decide
  rw [mlookup_append, mlookup_append, hmid]
  cases e.rscCleanupErr with
  | none => simp [mlookup, Option.or, hname]
  | some ce => simp [mlookup, Option.or]

theorem termKVs_lookup_node_entry (e : SupervisorTerminationError) (i : Nat)
    (hi : i < (sortedNodeNames e).length) (err : GoErr)
    (halk : alookup e.nodeErrMap ((sortedNodeNames e).get ⟨i, hi⟩) = some err)
    (hekv : errKVs err = none) :
    mlookup (termKVs e) (termNodeKey i "name")
        = some (Val.str ((sortedNodeNames e).get ⟨i, hi⟩)) ∧
    mlookup (termKVs e) (termNodeKey i "error") = some (Val.err err) := by
  rw [termKVs]
  have hmid := termNodes_lookup_node (sortedNodeNames e) 0 i e.nodeErrMap hi err halk hekv
  rw [Nat.zero_add] at hmid
  have hcl : ∀ s, mlookup
      (match e.rscCleanupErr with
       | none => []
       | some ce => [("supervisor.termination.cleanup.error", Val.err ce)])
      (termNodeKey i s) = none := by
    intro s
    cases e.rscCleanupErr with
    | none => rfl
    | some ce => simp [mlookup, cleanup_ne_node i s]
  constructor
  · rw [mlookup_append, mlookup_append, hcl "name", hmid.1]
    simp [Option.or]
  · rw [mlookup_append, mlookup_append, hcl "error", hmid.2]
    simp [Option.or]

theorem termKVs_lookup_subtree_entry (e : SupervisorTerminationError) (i : Nat)
    (hi : i < (sortedNodeNames e).length) (err : GoErr) (sub : KV)
    (halk : alookup e.nodeErrMap ((sortedNodeNames e).get ⟨i, hi⟩) = some err)
    (hekv : errKVs err = some sub) (k0 : String) :
    mlookup (termKVs e) (subtreePre i ++ k0) = mlookup (trimMap sub) k0 := by
  rw [termKVs]
  have hmid := termNodes_lookup_subtree (sortedNodeNames e) 0 i e.nodeErrMap hi err sub
    halk hekv k0
  rw [Nat.zero_add] at hmid
  have hbase : mlookup [("supervisor.name", Val.str e.supRuntimeName)]
      (subtreePre i ++ k0) = none := by
    simp [mlookup, name_ne_subtree i k0]
  have hcl : mlookup
      (match e.rscCleanupErr with
       | none => []
       | some ce => [("supervisor.termination.cleanup.error", Val.err ce)])
      (subtreePre i ++ k0) = none := by
    cases e.rscCleanupErr with
    | none => rfl
    | some ce => simp [mlookup, cleanup_ne_subtree i k0]
  rw [mlookup_append, mlookup_append, hcl, hbase, hmid, Option.none_or, Option.or_none]

theorem termKVs_lookup_none13 (e : SupervisorTerminationError) (K : String)
    (h1 : K.data.take 13 ≠ "supervisor.name".data.take 13)
    (h2 : K.data.take 13 ≠ "supervisor.subtree.".data.take 13)
    (h3 : K.data.take 13 ≠ "supervisor.termination.".data.take 13) :
    mlookup (termKVs e) K = none := by
  rw [termKVs]
  have hb : ("supervisor.name" : String) ≠ K := fun he => h1 (by rw [← he])
  have hmid : mlookup (termNodes 0 (sortedNodeNames e) e.nodeErrMap) K = none := by
    apply mlookup_eq_none
    intro p hp
    obtain ⟨i, _, r, hr | hr⟩ :=
      termNodes_keys_shape _ 0 _ p.1 (List.mem_map_of_mem _ hp)
    · rw [hr]
      exact fun he => h2 (by rw [← he]; exact take13_subtree i r)
    · rw [hr]
      exact fun he => h3 (by rw [← he]; exact take13_node i r)
  have hcl : mlookup
      (match e.rscCleanupErr with
       | none => []
       | some ce => [("supervisor.termination.cleanup.error", Val.err ce)]) K = none := by
    cases e.rscCleanupErr with
    | none => rfl
    | some ce =>
      have hck : ("supervisor.termination.cleanup.error" : String) ≠ K := by
        intro he
        apply h3
        rw [← he]
        decide
      simp [mlookup, hck]
  rw [mlookup_append, mlookup_append, hcl, hmid, Option.none_or, Option.none_or]
  simp [mlookup, hb]

/-! ## Association list lemmas (sabotageDB state) -/

theorem alookup_append {α : Type} (a b : List (String × α)) (k : String) :
    alookup (a ++ b) k = (alookup a k).or (alookup b k) := by
  induction a with
  | nil => simp [alookup, Option.or]
  | cons p a ih =>
    obtain ⟨k', v⟩ := p
    by_cases h : k' = k <;> simp [alookup, h, ih, Option.or]

theorem alookup_map_overwrite {α : Type} (m : List (String × α)) (k : String) (v : α)
    (hp : (alookup m k).isSome) :
    alookup (m.map (fun p => if p.1 = k then (k, v) else p)) k = some v := by
  induction m with
  | nil => simp [alookup] at hp
  | cons p m ih =>
    obtain ⟨k1, v1⟩ := p
    by_cases h1 : k1 = k
    · subst h1
      have hfp : (if (k1, v1).1 = k1 then (k1, v) else (k1, v1)) = (k1, v) := by simp
      rw [List.map_cons, hfp, alookup, if_pos rfl]
    · rw [alookup, if_neg h1] at hp
      have hfp : (if (k1, v1).1 = k then (k, v) else (k1, v1)) = (k1, v1) := by simp [h1]
      rw [List.map_cons, hfp, alookup, if_neg h1]
      exact ih hp

theorem alookup_map_overwrite_ne {α : Type} (m : List (String × α)) (k k' : String) (v : α)
    (h : k' ≠ k) :
    alookup (m.map (fun p => if p.1 = k then (k, v) else p)) k' = alookup m k' := by
  induction m with
  | nil => rfl
  | cons p m ih =>
    obtain ⟨k1, v1⟩ := p
    by_cases h1 : k1 = k
    · subst h1
      have hfp : (if (k1, v1).1 = k1 then (k1, v) else (k1, v1)) = (k1, v) := by simp
      rw [List.map_cons, hfp, alookup, alookup]
      have hne : k1 ≠ k' := fun he => h (he ▸ rfl)
      rw [if_neg hne, if_neg hne]
      exact ih
    · have hfp : (if (k1, v1).1 = k then (k, v) else (k1, v1)) = (k1, v1) := by simp [h1]
      rw [List.map_cons, hfp, alookup, alookup]
      by_cases h2 : k1 = k'
      · rw [if_pos h2, if_pos h2]
      · rw [if_neg h2, if_neg h2]
        exact ih

theorem alookup_aset_self {α : Type} (m : List (String × α)) (k : String) (v : α) :
    alookup (aset m k v) k = some v := by
  rw [aset]
  split
  · rename_i hp
    exact alookup_map_overwrite m k v hp
  · rw [alookup_append]
    rename_i hp
    cases halk : alookup m k with
    | some w => rw [halk] at hp; simp at hp
    | none => simp [alookup, Option.or]

theorem alookup_aset_ne {α : Type} (m : List (String × α)) (k k' : String) (v : α)
    (h : k' ≠ k) : alookup (aset m k v) k' = alookup m k' := by
  rw [aset]
  split
  · exact alookup_map_overwrite_ne m k k' v h
  · rw [alookup_append]
    have hsing : alookup [(k, v)] k' = none := by
      have hne : k ≠ k' := fun he => h he.symm
      simp [alookup, hne]
    rw [hsing, Option.or_none]

theorem adel_cons {α : Type} (k1 : String) (v1 : α) (m : List (String × α)) (k : String) :
    adel ((k1, v1) :: m) k = if k1 = k then adel m k else (k1, v1) :: adel m k := by
  rw [adel, List.filter_cons]
  by_cases h1 : k1 = k
  · rw [if_neg (by simp [h1]), if_pos h1]
    rfl
  · rw [if_pos (by simp [h1]), if_neg h1]
    rfl

theorem alookup_adel_self {α : Type} (m : List (String × α)) (k : String) :
    alookup (adel m k) k = none := by
  induction m with
  | nil => rfl
  | cons p m ih =>
    obtain ⟨k1, v1⟩ := p
    rw [adel_cons]
    by_cases h1 : k1 = k
    · rw [if_pos h1]
      exact ih
    · rw [if_neg h1, alookup, if_neg h1]
      exact ih

theorem alookup_adel_ne {α : Type} (m : List (String × α)) (k k' : String)
    (h : k' ≠ k) : alookup (adel m k) k' = alookup m k' := by
  induction m with
  | nil => rfl
  | cons p m ih =>
    obtain ⟨k1, v1⟩ := p
    rw [adel_cons]
    by_cases h1 : k1 = k
    · rw [if_pos h1, alookup]
      have hne : k1 ≠ k' := fun he => h (by rw [← he, h1])
      rw [if_neg hne]
      exact ih
    · rw [if_neg h1, alookup, alookup]
      by_cases h2 : k1 = k'
      · rw [if_pos h2, if_pos h2]
      · rw [if_neg h2, if_neg h2]
        exact ih

theorem alookup_isSome_of_mem {α : Type} (m : List (String × α)) (p : String × α)
    (hp : p ∈ m) : (alookup m p.1).isSome := by
  induction m with
  | nil => simp at hp
  | cons q m ih =>
    obtain ⟨k1, v1⟩ := q
    rw [alookup]
    by_cases h1 : k1 = p.1
    · rw [if_pos h1]; rfl
    · rw [if_neg h1]
      rcases List.mem_cons.mp hp with hp | hp
      · exact absurd (hp ▸ rfl) h1
      · exact ih hp

theorem alookup_some_mem {α : Type} (m : List (String × α)) (k : String) (v : α)
    (h : alookup m k = some v) : (k, v) ∈ m := by
  induction m with
  | nil => cases h
  | cons q m ih =>
    obtain ⟨k1, v1⟩ := q
    rw [alookup] at h
    by_cases h1 : k1 = k
    · rw [if_pos h1] at h
      injection h with h
      exact List.mem_cons.mpr (Or.inl (by rw [h1, h]))
    · rw [if_neg h1] at h
      exact List.mem_cons.mpr (Or.inr (ih h))

theorem dbInvariant_iff (db : SabotageDB) :
    dbInvariant db
      ↔ ∀ n, (alookup db.runningPlans n).isSome → (alookup db.plans n).isSome := by
  constructor
  · intro h n hn
    obtain ⟨v, hv⟩ := Option.isSome_iff_exists.mp hn
    exact h (n, v) (alookup_some_mem _ _ _ hv)
  · intro h p hp
    exact h p.1 (alookup_isSome_of_mem db.runningPlans p hp)

/-! ## Claim theorems -/

/-- C7: under OneForOne, when the acted-on set is exactly the failing
child, the restart decision is a function of the child's restart policy
and its terminal error: a Permanent child is always restarted, a
Transient child is restarted if and only if it terminated with a
non-nil error, and a Temporary child is never restarted.
(`errored` = the child terminated with a non-nil error.) -/
theorem C7_restart_policy_decision (errored : Bool) :
    c.restartDecision c.Restart.Permanent errored = true ∧
    (c.restartDecision c.Restart.Transient errored = true ↔ errored = true) ∧
    c.restartDecision c.Restart.Temporary errored = false :=
  ⟨rfl, Iff.rfl, rfl⟩

/-- C8 counterexample: `Timeout` (types.go lines 93–98) performs no
validation, so the non-positive duration −1 still constructs a timeout
shutdown policy, refuting the claim that every `Timeout(d)` has
`d > 0`. -/
theorem C8_counterexample :
    (c.Timeout (-1)).tag = c.ShutdownTag.timeoutT ∧ ¬(0 < (c.Timeout (-1)).duration) := by
  exact ⟨rfl, by decide⟩

/-- C8 amended: every `Shutdown` value is the infinity variant or the
timeout variant, and `Timeout d` constructs the timeout variant carrying
exactly the given duration `d` — for every duration, positive or not; no
positivity check is performed and non-positive durations are
representable. -/
theorem C8_amended_timeout_any_duration :
    (∀ d : Int, (c.Timeout d).tag = c.ShutdownTag.timeoutT ∧ (c.Timeout d).duration = d
      ∧ c.Timeout d ≠ c.Inf) ∧
    (∀ s : c.Shutdown, s.tag = c.ShutdownTag.infinityT ∨ s = c.Timeout s.duration) := by
  constructor
  · intro d
    refine ⟨rfl, rfl, ?_⟩
    intro h
    have htag : c.ShutdownTag.timeoutT = c.ShutdownTag.infinityT :=
      congrArg c.Shutdown.tag h
    cases htag
  · intro s
    obtain ⟨tag, d⟩ := s
    cases tag
    · exact Or.inl rfl
    · exact Or.inr rfl

/-- C2: a `stopSabotagePlanMsg` whose plan name is registered in
`db.plans` but absent from `db.runningPlans` is answered with the
"plan is not running" error and then — the branch lacking a `continue` —
control falls through into a call of the zero-valued (nil) `stopPlan`
function (the `nilCall` flag) instead of continuing the loop. -/
theorem C2_stop_not_running_falls_through (db : SabotageDB) (name : String)
    (hplan : (alookup db.plans name).isSome)
    (hrun : alookup db.runningPlans name = none) :
    stateStep db (SabotageMsg.stopPlan name)
      = ⟨db, [some "plan is not running"], false, true⟩ := by
  show stopBranch db name = _
  rw [stopBranch]
  split
  · rename_i h
    rw [h] at hplan
    simp at hplan
  · split
    · rfl
    · rename_i stopRes h
      rw [hrun] at h
      cases h

/-- Witness for C2 at a concrete database. -/
theorem C2_stop_witness :
    stateStep ⟨[], [("p", toPlan "p" 0 0 0 "t")], []⟩ (SabotageMsg.stopPlan "p")
      = ⟨⟨[], [("p", toPlan "p" 0 0 0 "t")], []⟩, [some "plan is not running"],
         false, true⟩ :=
  C2_stop_not_running_falls_through _ "p" (by decide) (by decide)

/-- C3 counterexample: at this concrete state the plan "p" is running
and its stop function fails, yet after the `rmSabotagePlanMsg` the plan
is still present in `plans` (the branch replies with the stop error and
`continue`s before either `delete`), refuting the claim that the plan is
removed from `plans` while staying in `runningPlans`. -/
theorem C3_counterexample :
    (alookup (stateStep ⟨[], [("p", toPlan "p" 0 0 0 "t")], [("p", some "boom")]⟩
        (SabotageMsg.rmPlan "p")).db.plans "p").isSome ∧
    (alookup (stateStep ⟨[], [("p", toPlan "p" 0 0 0 "t")], [("p", some "boom")]⟩
        (SabotageMsg.rmPlan "p")).db.runningPlans "p").isSome := by
  constructor <;> decide

/-- C3 amended: when `stateLoop` processes a `rmSabotagePlanMsg` for a
plan that is in `runningPlans` and whose stop function returns a
non-nil error, it replies with the wrapped stop error and leaves the
whole state unchanged: the plan remains in both `plans` and
`runningPlans`, so the two maps stay consistent. -/
theorem C3_amended_rm_stop_failure_keeps_state (db : SabotageDB) (name e : String)
    (hplan : (alookup db.plans name).isSome)
    (hrun : alookup db.runningPlans name = some (some e)) :
    stateStep db (SabotageMsg.rmPlan name)
      = ⟨db, [some ("plan could not be stopped: " ++ e)], false, false⟩ := by
  show rmBranch db name = _
  rw [rmBranch]
  split
  · rename_i h
    rw [h] at hplan
    simp at hplan
  · split
    · rename_i stopRes h
      rw [hrun] at h
      injection h with h
      subst h
      rfl
    · rename_i h
      rw [hrun] at h
      cases h

/-- Witness for the amended C3 at a concrete database. -/
theorem C3_amended_witness :
    stateStep ⟨[], [("p", toPlan "p" 0 0 0 "t")], [("p", some "boom")]⟩
        (SabotageMsg.rmPlan "p")
      = ⟨⟨[], [("p", toPlan "p" 0 0 0 "t")], [("p", some "boom")]⟩,
         [some "plan could not be stopped: boom"], false, false⟩ :=
  C3_amended_rm_stop_failure_keeps_state _ "p" "boom" (by decide) (by decide)

/-- C10: a `startSabotagePlanMsg` whose plan name is already present in
`db.runningPlans` (in a state satisfying the running-plans-are-registered
invariant maintained by the loop) is answered with the "plan already
running" error; `spawner.Spawn` is not invoked and the state is left
unchanged. -/
theorem C10_start_already_running (db : SabotageDB) (name : String)
    (spawnResult : Except String (Option String))
    (hinv : dbInvariant db)
    (hrun : (alookup db.runningPlans name).isSome) :
    stateStep db (SabotageMsg.startPlan name spawnResult)
      = ⟨db, [some "plan already running"], false, false⟩ := by
  have hplan : (alookup db.plans name).isSome := (dbInvariant_iff db).mp hinv name hrun
  show startBranch db name spawnResult = _
  rw [startBranch.eq_def]
  split
  · rename_i h
    rw [h] at hplan
    simp at hplan
  · split
    · rfl
    · rename_i h
      rw [h] at hrun
      simp at hrun

/-- Witness for C10 at a concrete database. -/
theorem C10_witness :
    stateStep ⟨[], [("p", toPlan "p" 0 0 0 "t")], [("p", none)]⟩
        (SabotageMsg.startPlan "p" (Except.ok none))
      = ⟨⟨[], [("p", toPlan "p" 0 0 0 "t")], [("p", none)]⟩,
         [some "plan already running"], false, false⟩ :=
  C10_start_already_running _ "p" _ (by decide) (by decide)

/-- C9: `stateLoop` preserves the invariant that every running plan name
is also a registered plan name: assuming it on entry, every
message-handling branch (insert, remove, start, stop, register) leaves a
state in which the key set of `runningPlans` is a subset of the key set
of `plans`. -/
theorem C9_stateLoop_preserves_running_subset (db : SabotageDB) (msg : SabotageMsg)
    (hinv : dbInvariant db) : dbInvariant (stateStep db msg).db := by
  rw [dbInvariant_iff] at hinv
  rw [dbInvariant_iff]
  cases msg with
  | insertPlan name subtreeName duration period attempts =>
    show ∀ n,
        (alookup (insertBranch db name subtreeName duration period attempts).db.runningPlans
          n).isSome
        → (alookup (insertBranch db name subtreeName duration period attempts).db.plans
          n).isSome
    rw [insertBranch.eq_def]
    split
    · exact hinv
    · split
      · exact hinv
      · intro n hn
        have hn' : (alookup db.runningPlans n).isSome := hn
        show (alookup (aset db.plans name
          (toPlan name duration period attempts subtreeName)) n).isSome
        by_cases hnn : n = name
        · subst hnn
          rw [alookup_aset_self]
          rfl
        · rw [alookup_aset_ne db.plans name n _ hnn]
          exact hinv n hn'
  | rmPlan name =>
    show ∀ n, (alookup (rmBranch db name).db.runningPlans n).isSome
        → (alookup (rmBranch db name).db.plans n).isSome
    rw [rmBranch.eq_def]
    split
    · exact hinv
    · split
      · split
        · exact hinv
        · intro n hn
          have hn' : (alookup (adel db.runningPlans name) n).isSome := hn
          show (alookup (adel db.plans name) n).isSome
          by_cases hnn : n = name
          · subst hnn
            rw [alookup_adel_self] at hn'
            simp at hn'
          · rw [alookup_adel_ne db.runningPlans name n hnn] at hn'
            rw [alookup_adel_ne db.plans name n hnn]
            exact hinv n hn'
      · rename_i hrun
        intro n hn
        have hn' : (alookup db.runningPlans n).isSome := hn
        show (alookup (adel db.plans name) n).isSome
        by_cases hnn : n = name
        · subst hnn
          rw [hrun] at hn'
          simp at hn'
        · rw [alookup_adel_ne db.plans name n hnn]
          exact hinv n hn'
  | startPlan name spawnResult =>
    show ∀ n, (alookup (startBranch db name spawnResult).db.runningPlans n).isSome
        → (alookup (startBranch db name spawnResult).db.plans n).isSome
    rw [startBranch.eq_def]
    split
    · exact hinv
    · rename_i plan hplan
      split
      · exact hinv
      · split
        · exact hinv
        · rename_i stopFn
          intro n hn
          have hn' : (alookup (aset db.runningPlans name stopFn) n).isSome := hn
          show (alookup db.plans n).isSome
          by_cases hnn : n = name
          · subst hnn
            rw [hplan]
            rfl
          · rw [alookup_aset_ne db.runningPlans name n stopFn hnn] at hn'
            exact hinv n hn'
  | stopPlan name =>
    show ∀ n, (alookup (stopBranch db name).db.runningPlans n).isSome
        → (alookup (stopBranch db name).db.plans n).isSome
    rw [stopBranch.eq_def]
    split
    · exact hinv
    · split
      · exact hinv
      · split
        · exact hinv
        · intro n hn
          have hn' : (alookup (adel db.runningPlans name) n).isSome := hn
          show (alookup db.plans n).isSome
          by_cases hnn : n = name
          · subst hnn
            rw [alookup_adel_self] at hn'
            simp at hn'
          · rw [alookup_adel_ne db.runningPlans name n hnn] at hn'
            exact hinv n hn'
  | register subtreeName =>
    exact hinv

/-- Witness for C9 at a concrete database and message. -/
theorem C9_witness :
    dbInvariant (stateStep ⟨[], [("p", toPlan "p" 0 0 0 "t")], [("p", none)]⟩
      (SabotageMsg.stopPlan "p")).db :=
  C9_stateLoop_preserves_running_subset _ _ (by decide)

theorem mkeys_trimMap (m : KV) :
    mkeys (trimMap m) = (mkeys m).map (trimPfx "supervisor.") := by
  simp [mkeys, trimMap]

/-- C6: for every `SupervisorTerminationError`, the `KVs` projection
contains, for each entry `(nodeName, err)` of `nodeErrMap` whose error
does not implement `ErrKVs`, the keys
`supervisor.termination.node.<i>.name = nodeName` and
`supervisor.termination.node.<i>.error = err`, where `i` is the node
name's position in the lexicographically sorted list of all node names
of the map; and the key `supervisor.termination.cleanup.error` is
present if and only if the resource-cleanup error is non-nil. -/
theorem C6_termination_kvs (e : SupervisorTerminationError) :
    (∀ (i : Nat) (hi : i < (sortedNodeNames e).length) (err : GoErr),
      alookup e.nodeErrMap ((sortedNodeNames e).get ⟨i, hi⟩) = some err →
      errKVs err = none →
      mlookup (termKVs e) (termNodeKey i "name")
          = some (Val.str ((sortedNodeNames e).get ⟨i, hi⟩)) ∧
      mlookup (termKVs e) (termNodeKey i "error") = some (Val.err err)) ∧
    ((mlookup (termKVs e) "supervisor.termination.cleanup.error").isSome
      ↔ e.rscCleanupErr.isSome) := by
  constructor
  · intro i hi err halk hekv
    exact termKVs_lookup_node_entry e i hi err halk hekv
  · exact termKVs_lookup_cleanup e

/-- Witness for C6 at a concrete termination error. -/
theorem C6_witness :
    mlookup (termKVs ⟨"sup", [("w", GoErr.base "boom")], some (GoErr.base "cfail")⟩)
        (termNodeKey 0 "name") = some (Val.str "w") ∧
    mlookup (termKVs ⟨"sup", [("w", GoErr.base "boom")], some (GoErr.base "cfail")⟩)
        (termNodeKey 0 "error") = some (Val.err (GoErr.base "boom")) ∧
    (mlookup (termKVs ⟨"sup", [("w", GoErr.base "boom")], some (GoErr.base "cfail")⟩)
        "supervisor.termination.cleanup.error").isSome := by
  have h := (C6_termination_kvs ⟨"sup", [("w", GoErr.base "boom")],
      some (GoErr.base "cfail")⟩).1 0 (by decide) (GoErr.base "boom") rfl rfl
  have hc := (C6_termination_kvs ⟨"sup", [("w", GoErr.base "boom")],
      some (GoErr.base "cfail")⟩).2
  exact ⟨h.1, h.2, hc.mpr rfl⟩

/-- C4 counterexample: a `SupervisorRestartError` with runtime name "A"
whose termination error carries runtime name "B" has its
`supervisor.name` entry overwritten by the merged termination `KVs` (Go
map assignment, last write wins), so the projection maps
`supervisor.name` to "B", not to the restart error's own runtime name
"A" — refuting the claim as universally stated. -/
theorem C4_counterexample :
    mlookup (restartKVs ⟨"A", none, some ⟨"B", [], none⟩⟩) "supervisor.name"
        = some (Val.str "B") ∧
    (SupervisorRestartError.mk "A" none (some ⟨"B", [], none⟩)).supRuntimeName = "A" ∧
    Val.str "B" ≠ Val.str "A" := by
  refine ⟨rfl, rfl, ?_⟩
  intro h
  injection h with h
  exact absurd h (by decide)

/-- C4 amended: for every `SupervisorRestartError` whose termination
error, when present, carries the same supervisor runtime name (as holds
for the errors the supervisor builds about itself — otherwise the merged
termination entries overwrite `supervisor.name`), the `KVs` projection
maps `supervisor.name` to the supervisor runtime name, contains every
key `k` of the offending child's `ErrorToleranceReached` `KVs` re-keyed
as `supervisor.restart.<k>` with its value (when the node error is
non-nil), and agrees with the termination error's `KVs` on every one of
that error's keys (merged unchanged). -/
theorem C4_amended_restart_kvs (e : SupervisorRestartError)
    (hname : ∀ te, e.terminationErr = some te → te.supRuntimeName = e.supRuntimeName) :
    mlookup (restartKVs e) "supervisor.name" = some (Val.str e.supRuntimeName) ∧
    (∀ tol, e.nodeErr = some tol → ∀ k ∈ mkeys tol,
      mlookup (restartKVs e) ("supervisor.restart." ++ k) = mlookup tol k ∧
      (mlookup (restartKVs e) ("supervisor.restart." ++ k)).isSome) ∧
    (∀ te, e.terminationErr = some te → ∀ k ∈ mkeys (termKVs te),
      mlookup (restartKVs e) k = mlookup (termKVs te) k) := by
  have hsplit : restartKVs e = ([("supervisor.name", Val.str e.supRuntimeName)]
      ++ (match e.nodeErr with
          | none => []
          | some tol => rekey "supervisor.restart." tol))
      ++ (match e.terminationErr with
          | none => []
          | some te => termKVs te) := rfl
  refine ⟨?_, ?_, ?_⟩
  · rw [hsplit, mlookup_append, mlookup_append]
    have hmid : mlookup (match e.nodeErr with
        | none => []
        | some tol => rekey "supervisor.restart." tol) "supervisor.name" = none := by
      cases e.nodeErr with
      | none => rfl
      | some tol =>
        apply mlookup_eq_none
        intro p hp
        have hpk : p.1 ∈ mkeys (rekey "supervisor.restart." tol) :=
          List.mem_map_of_mem _ hp
        rw [mkeys_rekey] at hpk
        obtain ⟨k0, _, hke⟩ := List.mem_map.mp hpk
        rw [← hke]
        exact (ne_pre_append "supervisor.name" "supervisor.restart." 12
          (by decide) (by decide) k0).symm
    rw [hmid]
    cases hte : e.terminationErr with
    | none =>
      simp [mlookup, Option.or]
    | some te =>
      have hterm : mlookup (match (some te : Option SupervisorTerminationError) with
          | none => []
          | some te => termKVs te) "supervisor.name" = some (Val.str te.supRuntimeName) :=
        termKVs_lookup_name te
      rw [hterm, hname te hte]
      simp [Option.or]
  · intro tol htol k hk
    have hmid : mlookup (match e.nodeErr with
        | none => []
        | some tol' => rekey "supervisor.restart." tol') ("supervisor.restart." ++ k)
        = mlookup tol k := by
      have h1 : (match e.nodeErr with
          | none => ([] : KV)
          | some tol' => rekey "supervisor.restart." tol') = rekey "supervisor.restart." tol := by
        rw [htol]
      rw [h1]
      exact mlookup_rekey _ _ _
    have hterm : mlookup (match e.terminationErr with
        | none => []
        | some te => termKVs te) ("supervisor.restart." ++ k) = none := by
      cases e.terminationErr with
      | none => rfl
      | some te =>
        show mlookup (termKVs te) ("supervisor.restart." ++ k) = none
        apply termKVs_lookup_none13
        · rw [append_take_of_le _ _ 13 (by decide)]
          decide
        · rw [append_take_of_le _ _ 13 (by decide)]
          decide
        · rw [append_take_of_le _ _ 13 (by decide)]
          decide
    have hbase : mlookup [("supervisor.name", Val.str e.supRuntimeName)]
        ("supervisor.restart." ++ k) = none := by
      have hne : ("supervisor.name" : String) ≠ "supervisor.restart." ++ k :=
        ne_pre_append "supervisor.name" "supervisor.restart." 12 (by decide) (by decide) k
      simp [mlookup, hne]
    have heq : mlookup (restartKVs e) ("supervisor.restart." ++ k) = mlookup tol k := by
      rw [hsplit, mlookup_append, mlookup_append, hterm, hmid, hbase,
        Option.none_or, Option.or_none]
    refine ⟨heq, ?_⟩
    rw [heq]
    exact mlookup_isSome_of_mem tol k hk
  · intro te hte k hk
    have h2 : (match e.terminationErr with
        | none => ([] : KV)
        | some te' => termKVs te') = termKVs te := by
      rw [hte]
    rw [hsplit, h2]
    exact mlookup_append_right _ _ k hk

/-- Witness for the amended C4 at a concrete restart error. -/
theorem C4_witness :
    mlookup (restartKVs ⟨"sup", some [("count", Val.str "4")],
        some ⟨"sup", [("w", GoErr.base "boom")], none⟩⟩) "supervisor.name"
      = some (Val.str "sup") ∧
    mlookup (restartKVs ⟨"sup", some [("count", Val.str "4")],
        some ⟨"sup", [("w", GoErr.base "boom")], none⟩⟩) ("supervisor.restart." ++ "count")
      = some (Val.str "4") := by
  have h := C4_amended_restart_kvs ⟨"sup", some [("count", Val.str "4")],
      some ⟨"sup", [("w", GoErr.base "boom")], none⟩⟩
    (by intro te hte; injection hte with hte; rw [← hte])
  refine ⟨h.1, ?_⟩
  have h2 := h.2.1 [("count", Val.str "4")] rfl "count" (by decide)
  rw [h2.1]
  rfl

/-- C5: for every `SupervisorStartError` whose node error is non-nil and
does not implement `ErrKVs`, the `KVs` projection maps
`supervisor.start.node.name` to the failing node's name and
`supervisor.start.node.error` to the node error; when a rollback
termination error is present all of its `KVs` entries are merged
unchanged; when the node error is nil no `supervisor.start.node.*` key
is present. -/
theorem C5_start_kvs (e : SupervisorStartError) :
    (∀ ne, e.nodeErr = some ne → errKVs ne = none →
      mlookup (startKVs e) "supervisor.start.node.name" = some (Val.str e.nodeName) ∧
      mlookup (startKVs e) "supervisor.start.node.error" = some (Val.err ne)) ∧
    (∀ te, e.terminationErr = some te → ∀ k ∈ mkeys (termKVs te),
      mlookup (startKVs e) k = mlookup (termKVs te) k) ∧
    (e.nodeErr = none → ∀ r, mlookup (startKVs e) ("supervisor.start.node." ++ r) = none) := by
  have hsplit : startKVs e = ([("supervisor.name", Val.str e.supRuntimeName)]
      ++ (match e.nodeErr with
          | none => []
          | some ne =>
            match errKVs ne with
            | some sub => rekey "supervisor.subtree." (trimMap sub)
            | none =>
              [("supervisor.start.node.name", Val.str e.nodeName),
               ("supervisor.start.node.error", Val.err ne)]))
      ++ (match e.terminationErr with
          | none => []
          | some te => termKVs te) := rfl
  refine ⟨?_, ?_, ?_⟩
  · intro ne hne hekv
    have hmid : (match e.nodeErr with
        | none => ([] : KV)
        | some ne' =>
          match errKVs ne' with
          | some sub => rekey "supervisor.subtree." (trimMap sub)
          | none =>
            [("supervisor.start.node.name", Val.str e.nodeName),
             ("supervisor.start.node.error", Val.err ne')])
        = [("supervisor.start.node.name", Val.str e.nodeName),
           ("supervisor.start.node.error", Val.err ne)] := by
      rw [hne]
      show (match errKVs ne with
        | some sub => rekey "supervisor.subtree." (trimMap sub)
        | none =>
          [("supervisor.start.node.name", Val.str e.nodeName),
           ("supervisor.start.node.error", Val.err ne)]) = _
      rw [hekv]
    have hterm : ∀ K : String,
        K.data.take 13 ≠ "supervisor.name".data.take 13 →
        K.data.take 13 ≠ "supervisor.subtree.".data.take 13 →
        K.data.take 13 ≠ "supervisor.termination.".data.take 13 →
        mlookup (match e.terminationErr with
          | none => []
          | some te => termKVs te) K = none := by
      intro K h1 h2 h3
      cases e.terminationErr with
      | none => rfl
      | some te =>
        show mlookup (termKVs te) K = none
        exact termKVs_lookup_none13 te K h1 h2 h3
    have hne2 : ("supervisor.start.node.error" : String) ≠ "supervisor.start.node.name" := by
      decide
    constructor
    · rw [hsplit, mlookup_append, mlookup_append, hmid,
        hterm "supervisor.start.node.name" (by decide) (by decide) (by decide)]
      simp [mlookup, Option.or, hne2]
    · rw [hsplit, mlookup_append, mlookup_append, hmid,
        hterm "supervisor.start.node.error" (by decide) (by decide) (by decide)]
      simp [mlookup, Option.or]
  · intro te hte k hk
    have h2 : (match e.terminationErr with
        | none => ([] : KV)
        | some te' => termKVs te') = termKVs te := by
      rw [hte]
    rw [hsplit, h2]
    exact mlookup_append_right _ _ k hk
  · intro hne r
    have hmid : (match e.nodeErr with
        | none => ([] : KV)
        | some ne' =>
          match errKVs ne' with
          | some sub => rekey "supervisor.subtree." (trimMap sub)
          | none =>
            [("supervisor.start.node.name", Val.str e.nodeName),
             ("supervisor.start.node.error", Val.err ne')]) = [] := by
      rw [hne]
    have hterm : mlookup (match e.terminationErr with
        | none => []
        | some te => termKVs te) ("supervisor.start.node." ++ r) = none := by
      cases e.terminationErr with
      | none => rfl
      | some te =>
        show mlookup (termKVs te) ("supervisor.start.node." ++ r) = none
        apply termKVs_lookup_none13
        · rw [append_take_of_le _ _ 13 (by decide)]
          decide
        · rw [append_take_of_le _ _ 13 (by decide)]
          decide
        · rw [append_take_of_le _ _ 13 (by decide)]
          decide
    have hbase : ("supervisor.name" : String) ≠ "supervisor.start.node." ++ r :=
      ne_pre_append "supervisor.name" "supervisor.start.node." 12 (by decide) (by decide) r
    rw [hsplit, mlookup_append, mlookup_append, hmid, hterm]
    simp [mlookup, Option.or, hbase]

/-- Witness for C5 at concrete start errors (with a non-`ErrKVs` node
error plus rollback termination error, and with a nil node error). -/
theorem C5_witness :
    mlookup (startKVs ⟨"sup", "w2", some (GoErr.base "boom"),
        some ⟨"sup", [("w1", GoErr.base "berr")], none⟩⟩)
      "supervisor.start.node.name" = some (Val.str "w2") ∧
    mlookup (startKVs ⟨"sup", "w2", some (GoErr.base "boom"),
        some ⟨"sup", [("w1", GoErr.base "berr")], none⟩⟩)
      "supervisor.start.node.error" = some (Val.err (GoErr.base "boom")) ∧
    mlookup (startKVs ⟨"sup", "w2", some (GoErr.base "boom"),
        some ⟨"sup", [("w1", GoErr.base "berr")], none⟩⟩)
      (termNodeKey 0 "name")
      = mlookup (termKVs ⟨"sup", [("w1", GoErr.base "berr")], none⟩)
          (termNodeKey 0 "name") ∧
    mlookup (startKVs ⟨"sup", "w2", none, none⟩)
      ("supervisor.start.node." ++ "name") = none := by
  have h1 := (C5_start_kvs ⟨"sup", "w2", some (GoErr.base "boom"),
      some ⟨"sup", [("w1", GoErr.base "berr")], none⟩⟩).1 (GoErr.base "boom") rfl rfl
  have h2 := (C5_start_kvs ⟨"sup", "w2", some (GoErr.base "boom"),
      some ⟨"sup", [("w1", GoErr.base "berr")], none⟩⟩).2.1
    ⟨"sup", [("w1", GoErr.base "berr")], none⟩ rfl (termNodeKey 0 "name") (by decide)
  have h3 := (C5_start_kvs ⟨"sup", "w2", none, none⟩).2.2 rfl "name"
  exact ⟨h1.1, h1.2, h2, h3⟩

/-- C1 counterexample: `SupervisorStartError.KVs` (part_000 line 116)
re-keys a nested subtree error's keys as `supervisor.subtree.<k>` with
no node index, unlike `SupervisorTerminationError.KVs` which writes
`supervisor.subtree.<i>.<k>` — so the claimed uniform indexed re-keying
fails for start errors: at this concrete input the indexed key
`supervisor.subtree.0.restart.count` is absent while the unindexed key
`supervisor.subtree.restart.count` carries the value. -/
theorem C1_counterexample :
    errKVs (GoErr.kvErr "tol" [("supervisor.restart.count", Val.str "4")])
      = some [("supervisor.restart.count", Val.str "4")] ∧
    mlookup (startKVs ⟨"root", "sub",
        some (GoErr.kvErr "tol" [("supervisor.restart.count", Val.str "4")]), none⟩)
      "supervisor.subtree.0.restart.count" = none ∧
    mlookup (startKVs ⟨"root", "sub",
        some (GoErr.kvErr "tol" [("supervisor.restart.count", Val.str "4")]), none⟩)
      "supervisor.subtree.restart.count" = some (Val.str "4") :=
  ⟨rfl, rfl, rfl⟩

/-- C1 amended: the nested-subtree re-keying differs by error kind.  In
a termination error, every key `k0` of the `i`-th node's subtree `KVs`
appears re-keyed as `supervisor.subtree.<i>.<k'>`, where `k'` is `k0`
with the leading `supervisor.` prefix stripped, carrying the
trimmed-key map's value.  In a start error the re-keyed key is
`supervisor.subtree.<k'>` with no index (stated for start errors
without a rollback termination error, whose entries are merged
afterwards and could overwrite). -/
theorem C1_amended_subtree_rekeying :
    (∀ (te : SupervisorTerminationError) (i : Nat)
       (hi : i < (sortedNodeNames te).length) (err : GoErr) (sub : KV),
       alookup te.nodeErrMap ((sortedNodeNames te).get ⟨i, hi⟩) = some err →
       errKVs err = some sub →
       ∀ k0 ∈ mkeys sub,
         mlookup (termKVs te) (subtreePre i ++ trimPfx "supervisor." k0)
             = mlookup (trimMap sub) (trimPfx "supervisor." k0) ∧
         (mlookup (termKVs te) (subtreePre i ++ trimPfx "supervisor." k0)).isSome) ∧
    (∀ (se : SupervisorStartError) (ne : GoErr) (sub : KV),
       se.nodeErr = some ne → errKVs ne = some sub → se.terminationErr = none →
       ∀ k0 ∈ mkeys sub,
         mlookup (startKVs se) ("supervisor.subtree." ++ trimPfx "supervisor." k0)
             = mlookup (trimMap sub) (trimPfx "supervisor." k0) ∧
         (mlookup (startKVs se) ("supervisor.subtree." ++ trimPfx "supervisor." k0)).isSome) := by
  constructor
  · intro te i hi err sub halk hekv k0 hk0
    have htrim : trimPfx "supervisor." k0 ∈ mkeys (trimMap sub) := by
      rw [mkeys_trimMap]
      exact List.mem_map_of_mem _ hk0
    have heq := termKVs_lookup_subtree_entry te i hi err sub halk hekv
      (trimPfx "supervisor." k0)
    refine ⟨heq, ?_⟩
    rw [heq]
    exact mlookup_isSome_of_mem _ _ htrim
  · intro se ne sub hne hekv hte k0 hk0
    have htrim : trimPfx "supervisor." k0 ∈ mkeys (trimMap sub) := by
      rw [mkeys_trimMap]
      exact List.mem_map_of_mem _ hk0
    have hsplit : startKVs se = ([("supervisor.name", Val.str se.supRuntimeName)]
        ++ (match se.nodeErr with
            | none => []
            | some ne' =>
              match errKVs ne' with
              | some sub' => rekey "supervisor.subtree." (trimMap sub')
              | none =>
                [("supervisor.start.node.name", Val.str se.nodeName),
                 ("supervisor.start.node.error", Val.err ne')]))
        ++ (match se.terminationErr with
            | none => []
            | some te => termKVs te) := rfl
    have hmid : (match se.nodeErr with
        | none => ([] : KV)
        | some ne' =>
          match errKVs ne' with
          | some sub' => rekey "supervisor.subtree." (trimMap sub')
          | none =>
            [("supervisor.start.node.name", Val.str se.nodeName),
             ("supervisor.start.node.error", Val.err ne')])
        = rekey "supervisor.subtree." (trimMap sub) := by
      rw [hne]
      show (match errKVs ne with
        | some sub' => rekey "supervisor.subtree." (trimMap sub')
        | none =>
          [("supervisor.start.node.name", Val.str se.nodeName),
           ("supervisor.start.node.error", Val.err ne)]) = _
      rw [hekv]
    have hterm : (match se.terminationErr with
        | none => ([] : KV)
        | some te => termKVs te) = [] := by
      rw [hte]
    have hbase : ("supervisor.name" : String)
        ≠ "supervisor.subtree." ++ trimPfx "supervisor." k0 :=
      ne_pre_append "supervisor.name" "supervisor.subtree." 12 (by decide) (by decide) _
    have heq : mlookup (startKVs se) ("supervisor.subtree." ++ trimPfx "supervisor." k0)
        = mlookup (trimMap sub) (trimPfx "supervisor." k0) := by
      rw [hsplit, hmid, hterm, List.append_nil, mlookup_append,
        mlookup_rekey "supervisor.subtree." (trimMap sub) (trimPfx "supervisor." k0)]
      cases hmt : mlookup (trimMap sub) (trimPfx "supervisor." k0) with
      | some v => simp [Option.or]
      | none =>
        simp [Option.or, mlookup, hbase]
    refine ⟨heq, ?_⟩
    rw [heq]
    exact mlookup_isSome_of_mem _ _ htrim

/-- Witness for the amended C1 at concrete termination and start
errors nesting the same subtree error. -/
theorem C1_witness :
    mlookup (termKVs ⟨"root",
        [("sub", GoErr.kvErr "tol" [("supervisor.restart.count", Val.str "4")])], none⟩)
      (subtreePre 0 ++ trimPfx "supervisor." "supervisor.restart.count")
      = some (Val.str "4") ∧
    mlookup (startKVs ⟨"root", "sub",
        some (GoErr.kvErr "tol" [("supervisor.restart.count", Val.str "4")]), none⟩)
      ("supervisor.subtree." ++ trimPfx "supervisor." "supervisor.restart.count")
      = some (Val.str "4") := by
  have ha := C1_amended_subtree_rekeying.1
    ⟨"root", [("sub", GoErr.kvErr "tol" [("supervisor.restart.count", Val.str "4")])], none⟩
    0 (by decide) (GoErr.kvErr "tol" [("supervisor.restart.count", Val.str "4")])
    [("supervisor.restart.count", Val.str "4")] rfl rfl
    "supervisor.restart.count" (by decide)
  have hb := C1_amended_subtree_rekeying.2
    ⟨"root", "sub", some (GoErr.kvErr "tol" [("supervisor.restart.count", Val.str "4")]), none⟩
    (GoErr.kvErr "tol" [("supervisor.restart.count", Val.str "4")])
    [("supervisor.restart.count", Val.str "4")] rfl rfl rfl
    "supervisor.restart.count" (by decide)
  constructor
  · rw [ha.1]
    rfl
  · rw [hb.1]
    rfl
